import Mathlib

/-!
Verification of the TUI log monitor core (src/main.rs) against its
specification.

Modelling conventions for the shallow embedding:
* Rust `String`/`&str` values are modelled as `List Char`.  All inputs the
  program manipulates here are treated as single-byte characters, so Rust's
  byte indices (`line[0..19]`, `timestamp[11..13]`, `len()`) and character
  indices (`line.chars().nth(10)`) coincide in the model.
* Rust `to_lowercase()` is modelled character-wise with `Char.toLower`.
* `std::time::Instant` is modelled as a natural-number millisecond clock
  passed explicitly (`now`); `last_update.elapsed()` becomes
  `now - lastUpdate`.
* `HashMap<String, usize>` is modelled as an association list updated the way
  the source updates the map (`entry(k).or_insert(0) += 1`).
* The backing file is passed explicitly to the polling functions as
  `Option (List (List Char))`: `none` models a file that cannot be opened
  (`File::open` returning `Err`), `some lines` its current list of lines.
* A Rust out-of-range byte-slice (which aborts with a panic) is modelled by
  `Option`, `none` standing for the panic.
-/

namespace LogMonitor

/-- Decides whether `needle` is a prefix of `hay`; building block for the
model of Rust's `str::contains`. -/
def prefixOfB : List Char → List Char → Bool
  | [], _ => true
  | _ :: _, [] => false
  | a :: as, b :: bs => a == b && prefixOfB as bs

/-- Model of Rust's `hay.contains(needle)`: substring containment. -/
def containsB : List Char → List Char → Bool
  | [], needle => needle == []
  | a :: t, needle => prefixOfB needle (a :: t) || containsB t needle

/-- Character-wise model of Rust's `to_lowercase()`. -/
def lowerStr (s : List Char) : List Char := s.map Char.toLower

/-- Log levels (main.rs 69-76). -/
inductive LogLevel where
  | Info
  | Debug
  | Warning
  | Error
  | Unknown
deriving DecidableEq, Repr

/-- `LogLevel::from_line` (main.rs 79-97): ordered keyword rules. -/
def LogLevel.fromLine (line : List Char) : LogLevel :=
  if containsB line "ASL Sender Statistics".toList then LogLevel.Info
  else
    let lineLower := lowerStr line
    if containsB lineLower "error".toList || containsB lineLower "fail".toList
        || containsB lineLower "exception".toList then LogLevel.Error
    else if containsB lineLower "warn".toList then LogLevel.Warning
    else if containsB lineLower "debug".toList then LogLevel.Debug
    else if containsB lineLower "notice".toList
        || containsB lineLower "info".toList then LogLevel.Info
    else LogLevel.Unknown

/-- One classified entry (struct LogLine, main.rs 61-66). -/
structure LogLine where
  content : List Char
  timestamp : List Char
  level : LogLevel
  highlighted : Bool
deriving DecidableEq, Repr

/-- struct LogStats (main.rs 50-58); `entries_by_hour` as an association
list. -/
structure LogStats where
  totalEntries : Nat
  errorCount : Nat
  warningCount : Nat
  infoCount : Nat
  debugCount : Nat
  unknownCount : Nat
  entriesByHour : List (List Char × Nat)
deriving DecidableEq, Repr

/-- enum ViewMode (main.rs 23-29). -/
inductive ViewMode where
  | LogView
  | StatsView
  | HelpView
  | FilterView
deriving DecidableEq, Repr

/-- struct App (main.rs 32-47).  `last_update: Instant` is the `lastUpdate`
millisecond clock. -/
structure App where
  logPath : List Char
  logLines : List LogLine
  filteredLogs : List Nat
  scroll : Nat
  selectedTab : Nat
  followMode : Bool
  lastUpdate : Nat
  viewMode : ViewMode
  stats : LogStats
  filterText : List Char
  filterEditing : Bool
  showTimestamps : Bool
  showLineNumbers : Bool
  maxLines : Nat
deriving DecidableEq, Repr

/-- `App::new` (main.rs 121-146); `now` models `Instant::now()`. -/
def App.new (logPath : List Char) (now : Nat) : App where
  logPath := logPath
  logLines := []
  filteredLogs := []
  scroll := 0
  selectedTab := 0
  followMode := true
  lastUpdate := now
  viewMode := ViewMode.LogView
  stats :=
    { totalEntries := 0, errorCount := 0, warningCount := 0, infoCount := 0
      debugCount := 0, unknownCount := 0, entriesByHour := [] }
  filterText := []
  filterEditing := false
  showTimestamps := true
  showLineNumbers := true
  maxLines := 1000

/-- Entry construction inside `App::add_log_line` (main.rs 171-187): the
guard `line.len() > 15 && line.chars().nth(10) == Some(' ') &&
line.chars().nth(13) == Some(':')` selects the byte slice `line[0..19]` as
the timestamp.  That slice aborts with a panic when the line has fewer than
19 bytes; `none` models that panic. -/
def parseLogLine (line : List Char) : Option LogLine :=
  if line.length > 15 && line.get? 10 == some ' ' && line.get? 13 == some ':' then
    if 19 ≤ line.length then
      some { content := line, timestamp := line.take 19
             level := LogLevel.fromLine line, highlighted := false }
    else
      none
  else
    some { content := line, timestamp := []
           level := LogLevel.fromLine line, highlighted := false }

/-- Tail of `App::add_log_line` (main.rs 182-192): push the entry, then
remove the oldest entry (`remove(0)`) when the length exceeds
`max_lines`. -/
def App.pushLine (app : App) (e : LogLine) : App :=
  let ls := app.logLines ++ [e]
  { app with logLines := if ls.length > app.maxLines then ls.drop 1 else ls }

/-- `App::add_log_line` (main.rs 171-193); `none` models the timestamp-slice
panic of `parseLogLine`. -/
def App.addLogLine (app : App) (line : List Char) : Option App :=
  (parseLogLine line).map app.pushLine

/-- The `for` loops of main.rs 161-163 and 210-212: add each line in turn;
`none` when one of the `add_log_line` calls panics. -/
def App.addLines (app : App) : List (List Char) → Option App
  | [] => some app
  | l :: ls =>
    match app.addLogLine l with
    | some a => a.addLines ls
    | none => none

/-- The index list built by `App::update_filter` (main.rs 228-241). -/
def filterIndices (logs : List LogLine) (ft : List Char) : List Nat :=
  if ft = [] then
    List.range logs.length
  else
    let filterLower := lowerStr ft
    ((logs.enum.filter fun p => containsB (lowerStr p.2.content) filterLower).map
      Prod.fst)

/-- `App::update_filter` (main.rs 228-241). -/
def App.updateFilter (app : App) : App :=
  { app with filteredLogs := filterIndices app.logLines app.filterText }

/-- One step of the hour-bucket loop of `App::update_stats` (main.rs
252-258): `entry(hour).or_insert(0) += 1` on the association list. -/
def bumpHour : List (List Char × Nat) → List Char → List (List Char × Nat)
  | [], k => [(k, 1)]
  | (k', v) :: rest, k =>
    if k' = k then (k', v + 1) :: rest else (k', v) :: bumpHour rest k

/-- Lookup in the hour map, `0` for an absent key. -/
def hourLookup : List (List Char × Nat) → List Char → Nat
  | [], _ => 0
  | (k', v) :: rest, k => if k' = k then v else hourLookup rest k

/-- The hour map built by `App::update_stats` (main.rs 252-258): for each
entry whose timestamp has at least 13 bytes, bump the bucket of the byte
slice `timestamp[11..13]`. -/
def hourMap (logs : List LogLine) : List (List Char × Nat) :=
  logs.foldl
    (fun m l =>
      if 13 ≤ l.timestamp.length then bumpHour m ((l.timestamp.drop 11).take 2)
      else m)
    []

/-- `App::update_stats` (main.rs 243-259). -/
def App.updateStats (app : App) : App :=
  { app with
    stats :=
      { totalEntries := app.logLines.length
        errorCount := (app.logLines.filter fun l => l.level == LogLevel.Error).length
        warningCount := (app.logLines.filter fun l => l.level == LogLevel.Warning).length
        infoCount := (app.logLines.filter fun l => l.level == LogLevel.Info).length
        debugCount := (app.logLines.filter fun l => l.level == LogLevel.Debug).length
        unknownCount := (app.logLines.filter fun l => l.level == LogLevel.Unknown).length
        entriesByHour := hourMap app.logLines } }

/-- Outcome of a polling call (`initialize_logs` / `update_logs`):
`success` models `Ok(())`, `ioFailure` the `?` propagation of a failed
`File::open`, `crash` a panic inside `add_log_line`. -/
inductive PollResult where
  | success (app : App)
  | ioFailure (app : App)
  | crash
deriving DecidableEq, Repr

/-- `App::initialize_logs` (main.rs 149-169): read all lines, keep the last
`numLines`, add them, then `update_filter` and `update_stats`. -/
def App.initializeLogs (app : App) (file : Option (List (List Char)))
    (numLines : Nat) : PollResult :=
  match file with
  | none => PollResult.ioFailure app
  | some lines =>
    let start := if lines.length > numLines then lines.length - numLines else 0
    match app.addLines (lines.drop start) with
    | none => PollResult.crash
    | some a => PollResult.success a.updateFilter.updateStats

/-- `App::update_logs` (main.rs 196-226).  The throttle guard compares the
elapsed time to 500 ms; the new-line detection compares the file's line
count to `log_lines.len()`; on new lines it adds the suffix, recomputes
stats then filter, snaps the scroll when follow mode is on, and finally
advances `last_update`. -/
def App.updateLogs (app : App) (file : Option (List (List Char)))
    (now : Nat) : PollResult :=
  if now - app.lastUpdate < 500 then
    PollResult.success app
  else
    match file with
    | none => PollResult.ioFailure app
    | some lines =>
      if lines.length > app.logLines.length then
        match app.addLines (lines.drop app.logLines.length) with
        | none => PollResult.crash
        | some a1 =>
          let a2 := a1.updateStats.updateFilter
          let a3 :=
            if a2.followMode then { a2 with scroll := a2.filteredLogs.length }
            else a2
          PollResult.success { a3 with lastUpdate := now }
      else
        PollResult.success { app with lastUpdate := now }

/-- `App::scroll_up` (main.rs 261-265). -/
def App.scrollUp (app : App) : App :=
  if app.scroll > 0 then { app with scroll := app.scroll - 1 } else app

/-- `App::scroll_down` (main.rs 267-271). -/
def App.scrollDown (app : App) : App :=
  if app.scroll < app.filteredLogs.length then { app with scroll := app.scroll + 1 }
  else app

/-- `App::page_up` (main.rs 273-279). -/
def App.pageUp (app : App) : App :=
  if app.scroll > 10 then { app with scroll := app.scroll - 10 }
  else { app with scroll := 0 }

/-- `App::page_down` (main.rs 281-287). -/
def App.pageDown (app : App) : App :=
  if app.scroll + 10 < app.filteredLogs.length then
    { app with scroll := app.scroll + 10 }
  else
    { app with scroll := app.filteredLogs.length }

/-- `App::toggle_follow_mode` (main.rs 289-295). -/
def App.toggleFollowMode (app : App) : App :=
  let a := { app with followMode := !app.followMode }
  if a.followMode then { a with scroll := a.filteredLogs.length } else a

/-- `App::toggle_timestamps` (main.rs 297-299). -/
def App.toggleTimestamps (app : App) : App :=
  { app with showTimestamps := !app.showTimestamps }

/-- `App::toggle_line_numbers` (main.rs 301-303). -/
def App.toggleLineNumbers (app : App) : App :=
  { app with showLineNumbers := !app.showLineNumbers }

/-- `App::add_filter_char` (main.rs 305-308). -/
def App.addFilterChar (app : App) (c : Char) : App :=
  App.updateFilter { app with filterText := app.filterText ++ [c] }

/-- `App::remove_filter_char` (main.rs 310-313); `String::pop` drops the
last character. -/
def App.removeFilterChar (app : App) : App :=
  App.updateFilter { app with filterText := app.filterText.dropLast }

/-- `App::clear_filter` (main.rs 315-318). -/
def App.clearFilter (app : App) : App :=
  App.updateFilter { app with filterText := [] }

/-- `App::next_tab` (main.rs 328-336). -/
def App.nextTab (app : App) : App :=
  let t := (app.selectedTab + 1) % 3
  let vm :=
    match t with
    | 0 => ViewMode.LogView
    | 1 => ViewMode.StatsView
    | 2 => ViewMode.HelpView
    | _ => app.viewMode
  { app with selectedTab := t, viewMode := vm }

/-- `App::prev_tab` (main.rs 338-350). -/
def App.prevTab (app : App) : App :=
  let t := if app.selectedTab > 0 then app.selectedTab - 1 else 2
  let vm :=
    match t with
    | 0 => ViewMode.LogView
    | 1 => ViewMode.StatsView
    | 2 => ViewMode.HelpView
    | _ => app.viewMode
  { app with selectedTab := t, viewMode := vm }

/-- A key event as the main loop dispatches it (main.rs 464-517): the key
code plus whether CONTROL is held. -/
inductive Key where
  | enter
  | esc
  | backspace
  | tab
  | backTab
  | up
  | down
  | pageUp
  | pageDown
  | char (c : Char) (ctrl : Bool)
deriving DecidableEq, Repr

/-- The key dispatch of the main loop (main.rs 466-516).  In
`ViewMode::FilterView` keys edit the filter; otherwise they drive the view.
The `q` key breaks the loop without mutating the state, so it is modelled as
the identity on the state. -/
def App.handleKey (app : App) (k : Key) : App :=
  match app.viewMode with
  | ViewMode.FilterView =>
    match k with
    | Key.enter =>
      App.updateFilter { app with viewMode := ViewMode.LogView, filterEditing := false }
    | Key.esc =>
      { app with viewMode := ViewMode.LogView, filterEditing := false }
    | Key.char c _ => app.addFilterChar c
    | Key.backspace => app.removeFilterChar
    | _ => app
  | _ =>
    match k with
    | Key.char 'q' _ => app
    | Key.char 'f' _ => app.toggleFollowMode
    | Key.char 't' _ => app.toggleTimestamps
    | Key.char 'n' _ => app.toggleLineNumbers
    | Key.char '/' _ =>
      { app with viewMode := ViewMode.FilterView, filterEditing := true }
    | Key.char 'c' true => app.clearFilter
    | Key.tab => app.nextTab
    | Key.backTab => app.prevTab
    | Key.up => App.scrollUp { app with followMode := false }
    | Key.down => app.scrollDown
    | Key.pageUp => App.pageUp { app with followMode := false }
    | Key.pageDown => app.pageDown
    | _ => app

/-- The Entry Store contents a poll outcome carries (empty for a failed
poll): projection used to state concrete runs. -/
def contentsOf : PollResult → List (List Char)
  | PollResult.success a => a.logLines.map LogLine.content
  | _ => []

/-- A concrete three-line file used to exhibit the behaviour of
`update_logs` on an unchanged file after a partial initial load. -/
def demoFile3 : List (List Char) := [['a'], ['b'], ['c']]

/-- Initial load of `demoFile3` keeping only its last line. -/
def initApp3 : PollResult := (App.new [] 0).initializeLogs (some demoFile3) 1

/-- A poll of the unchanged `demoFile3` right after the initial load. -/
def pollAgain3 : PollResult :=
  match initApp3 with
  | PollResult.success a => a.updateLogs (some demoFile3) 500
  | r => r

/-- The state after one ingestion batch of the single line "a" from a fresh
`App::new`, exactly as `update_logs` produces it. -/
def followApp : App :=
  match (App.new [] 0).updateLogs (some [['a']]) 500 with
  | PollResult.success a => a
  | _ => App.new [] 0

/-- A state reached from startup: initial load of the two-line file
["a", "b"], two Down keys (scroll to 2), the `/` key (enter filter editing)
and the character key `z` (a filter edit shrinking the Filter Index to
nothing). -/
def reachedApp : App :=
  match (App.new [] 0).initializeLogs (some [['a'], ['b']]) 100 with
  | PollResult.success a =>
    [Key.down, Key.down, Key.char '/' false, Key.char 'z' false].foldl
      App.handleKey a
  | _ => App.new [] 0

/-- The last `n` elements of a list: the shape of the Entry Store after
FIFO eviction. -/
def lastN (n : Nat) (l : List α) : List α := l.drop (l.length - n)

/-- The entries a list of raw lines classifies to: `some` exactly when every
`parseLogLine` succeeds (no timestamp-slice panic). -/
def parseAll : List (List Char) → Option (List LogLine)
  | [] => some []
  | l :: ls =>
    match parseLogLine l, parseAll ls with
    | some e, some es => some (e :: es)
    | _, _ => none

/-- Outcome of the poll step of one main-loop iteration (main.rs 458-461):
`exitErr` models the `?` on `app.update_logs()` propagating the error out of
`main`, which terminates the process. -/
inductive LoopOutcome where
  | continue (app : App)
  | exitErr (app : App)
  | crashed
deriving DecidableEq, Repr

/-- The poll step of one main-loop iteration (main.rs 458-461): polls are
skipped in the help view; an `Err` from `update_logs` leaves `main` via `?`
and terminates the process. -/
def mainPollStep (app : App) (file : Option (List (List Char)))
    (now : Nat) : LoopOutcome :=
  if app.viewMode = ViewMode.HelpView then LoopOutcome.continue app
  else
    match app.updateLogs file now with
    | PollResult.success a => LoopOutcome.continue a
    | PollResult.ioFailure a => LoopOutcome.exitErr a
    | PollResult.crash => LoopOutcome.crashed

/-! ### Lemmas about `lastN` and the Entry Store -/

theorem length_lastN (n : Nat) (l : List α) : (lastN n l).length ≤ n := by
  simp only [lastN, List.length_drop]
  omega

theorem lastN_of_le {n : Nat} {l : List α} (h : l.length ≤ n) : lastN n l = l := by
  simp [lastN, Nat.sub_eq_zero_of_le h]

theorem lastN_cons {n : Nat} {l : List α} (a : α) (h : n ≤ l.length) :
    lastN n (a :: l) = lastN n l := by
  simp only [lastN, List.length_cons]
  rw [show l.length + 1 - n = (l.length - n) + 1 by omega, List.drop_succ_cons]

theorem lastN_append_absorb (n : Nat) (r : List α) :
    ∀ l : List α, lastN n (lastN n l ++ r) = lastN n (l ++ r) := by
  intro l
  induction l with
  | nil => simp [lastN]
  | cons a l ih =>
    by_cases h : (a :: l).length ≤ n
    · rw [lastN_of_le h]
    · have hl : n ≤ l.length := by simp at h; omega
      have hlr : n ≤ (l ++ r).length := by
        simp only [List.length_append]; omega
      rw [lastN_cons a hl, ih, List.cons_append, lastN_cons a hlr]

theorem pushLine_logLines {app : App} (e : LogLine)
    (h : app.logLines.length ≤ app.maxLines) :
    (app.pushLine e).logLines = lastN app.maxLines (app.logLines ++ [e]) := by
  have hlen : (app.logLines ++ [e]).length = app.logLines.length + 1 := by simp
  show (if (app.logLines ++ [e]).length > app.maxLines then
      (app.logLines ++ [e]).drop 1 else app.logLines ++ [e])
    = lastN app.maxLines (app.logLines ++ [e])
  by_cases hgt : (app.logLines ++ [e]).length > app.maxLines
  · rw [if_pos hgt]
    unfold lastN
    rw [show (app.logLines ++ [e]).length - app.maxLines = 1 by omega]
  · rw [if_neg hgt]
    unfold lastN
    rw [show (app.logLines ++ [e]).length - app.maxLines = 0 by omega]
    rfl

theorem addLines_logLines :
    ∀ (lines : List (List Char)) (app : App) (es : List LogLine),
      app.logLines.length ≤ app.maxLines →
      parseAll lines = some es →
      (app.addLines lines).map App.logLines
        = some (lastN app.maxLines (app.logLines ++ es)) := by
  intro lines
  induction lines with
  | nil =>
    intro app es h hp
    simp only [parseAll, Option.some.injEq] at hp
    subst hp
    simp [App.addLines, lastN_of_le h]
  | cons l ls ih =>
    intro app es h hp
    simp only [parseAll] at hp
    cases hl : parseLogLine l with
    | none => rw [hl] at hp; cases hp
    | some e =>
      rw [hl] at hp
      cases hls : parseAll ls with
      | none => rw [hls] at hp; cases hp
      | some es2 =>
        rw [hls] at hp
        simp only [Option.some.injEq] at hp
        subst hp
        simp only [App.addLines, App.addLogLine, hl, Option.map_some']
        have hpush : (app.pushLine e).logLines
            = lastN app.maxLines (app.logLines ++ [e]) := pushLine_logLines e h
        have hmax : (app.pushLine e).maxLines = app.maxLines := rfl
        have hlen : (app.pushLine e).logLines.length ≤ (app.pushLine e).maxLines := by
          rw [hpush, hmax]; exact length_lastN _ _
        have := ih (app.pushLine e) es2 hlen hls
        rw [this, hpush, hmax, lastN_append_absorb, List.append_assoc,
          List.singleton_append]

/-! ### Claim theorems -/

/-- C1: for every sequence of raw lines appended via `add_log_line` (one
that does not hit the timestamp-slice panic, i.e. `parseAll` succeeds),
starting from `App::new` (capacity 1000) the Entry Store ends up holding
exactly the most recent entries in append order — the last 1000 of the
classified lines, the oldest evicted first — and its length never exceeds
1000.  Applying the theorem to each prefix of the sequence gives the bound
after every single append. -/
theorem entry_store_bounded_fifo (lines : List (List Char)) (es : List LogLine)
    (h : parseAll lines = some es) :
    ((App.new [] 0).addLines lines).map App.logLines = some (lastN 1000 es)
      ∧ (lastN 1000 es).length ≤ 1000 := by
  refine ⟨?_, length_lastN _ _⟩
  have := addLines_logLines lines (App.new [] 0) es (by simp [App.new]) h
  simpa [App.new] using this

/-- Witness for C1 at the concrete input `["a"]`. -/
theorem entry_store_bounded_fifo_witness :
    ((App.new [] 0).addLines [['a']]).map App.logLines
        = some (lastN 1000 [⟨['a'], [], LogLevel.Unknown, false⟩])
      ∧ (lastN 1000 [(⟨['a'], [], LogLevel.Unknown, false⟩ : LogLine)]).length ≤ 1000 :=
  entry_store_bounded_fifo [['a']] [⟨['a'], [], LogLevel.Unknown, false⟩] (by decide)

/-! ### The Filter Index (claim C2) -/

theorem containsB_nil (hay : List Char) : containsB hay [] = true := by
  cases hay <;> simp [containsB, prefixOfB]

theorem mem_enumFrom_filter_map (p : LogLine → Bool) :
    ∀ (logs : List LogLine) (n i : Nat),
      (i ∈ ((List.enumFrom n logs).filter fun q => p q.2).map Prod.fst
        ↔ ∃ e, n ≤ i ∧ logs[i - n]? = some e ∧ p e = true) := by
  intro logs
  induction logs with
  | nil => intro n i; simp [List.enumFrom]
  | cons a ls ih =>
    intro n i
    rw [show List.enumFrom n (a :: ls) = (n, a) :: List.enumFrom (n + 1) ls from rfl]
    by_cases hp : p a = true
    · rw [List.filter_cons_of_pos (by simpa using hp), List.map_cons]
      simp only [List.mem_cons]
      rw [ih (n + 1) i]
      constructor
      · rintro (rfl | ⟨e, hni, hget, hpe⟩)
        · exact ⟨a, Nat.le_refl i, by simp, hp⟩
        · refine ⟨e, by omega, ?_, hpe⟩
          rw [show i - n = (i - (n + 1)) + 1 by omega]
          simpa using hget
      · rintro ⟨e, hni, hget, hpe⟩
        by_cases hin : i = n
        · exact Or.inl hin
        · refine Or.inr ⟨e, by omega, ?_, hpe⟩
          rw [show i - n = (i - (n + 1)) + 1 by omega] at hget
          simpa using hget
    · rw [List.filter_cons_of_neg (by simpa using hp)]
      rw [ih (n + 1) i]
      constructor
      · rintro ⟨e, hni, hget, hpe⟩
        refine ⟨e, by omega, ?_, hpe⟩
        rw [show i - n = (i - (n + 1)) + 1 by omega]
        simpa using hget
      · rintro ⟨e, hni, hget, hpe⟩
        by_cases hin : i = n
        · subst hin
          rw [show i - i = 0 by omega] at hget
          simp only [List.getElem?_cons_zero, Option.some.injEq] at hget
          subst hget
          exact absurd hpe hp
        · refine ⟨e, by omega, ?_, hpe⟩
          rw [show i - n = (i - (n + 1)) + 1 by omega] at hget
          simpa using hget

theorem pairwise_enumFrom_filter_map (p : LogLine → Bool) :
    ∀ (logs : List LogLine) (n : Nat),
      List.Pairwise (· < ·)
        (((List.enumFrom n logs).filter fun q => p q.2).map Prod.fst) := by
  intro logs
  induction logs with
  | nil => intro n; simp [List.enumFrom]
  | cons a ls ih =>
    intro n
    rw [show List.enumFrom n (a :: ls) = (n, a) :: List.enumFrom (n + 1) ls from rfl]
    by_cases hp : p a = true
    · rw [List.filter_cons_of_pos (by simpa using hp), List.map_cons]
      refine List.Pairwise.cons ?_ (ih (n + 1))
      intro j hj
      rcases (mem_enumFrom_filter_map p ls (n + 1) j).mp hj with ⟨e, hnj, _, _⟩
      omega
    · rw [List.filter_cons_of_neg (by simpa using hp)]
      exact ih (n + 1)

/-- C2: the Filter Index built by `update_filter` is the strictly
increasing list of exactly those store positions whose content
case-insensitively contains the filter text (soundness and completeness),
and the empty filter text yields the identity sequence over all
positions. -/
theorem filter_index_correct (logs : List LogLine) (ft : List Char) :
    List.Pairwise (· < ·) (filterIndices logs ft)
    ∧ (∀ i : Nat, i ∈ filterIndices logs ft ↔
        ∃ e, logs[i]? = some e
          ∧ containsB (lowerStr e.content) (lowerStr ft) = true)
    ∧ filterIndices logs [] = List.range logs.length := by
  have hnil : filterIndices logs [] = List.range logs.length := by
    simp [filterIndices]
  refine ⟨?_, ?_, hnil⟩
  · by_cases hft : ft = []
    · subst hft
      rw [hnil]
      exact List.pairwise_lt_range _
    · simp only [filterIndices, if_neg hft]
      exact pairwise_enumFrom_filter_map
        (fun e => containsB (lowerStr e.content) (lowerStr ft)) logs 0
  · intro i
    by_cases hft : ft = []
    · subst hft
      rw [hnil, List.mem_range]
      constructor
      · intro hi
        exact ⟨logs[i], List.getElem?_eq_getElem hi, containsB_nil _⟩
      · rintro ⟨e, hget, _⟩
        rcases List.getElem?_eq_some.mp hget with ⟨hlt, _⟩
        exact hlt
    · simp only [filterIndices, if_neg hft]
      have hmem := mem_enumFrom_filter_map
        (fun e => containsB (lowerStr e.content) (lowerStr ft)) logs 0 i
      constructor
      · intro h
        rcases hmem.mp h with ⟨e, _, hget, hpe⟩
        exact ⟨e, by simpa using hget, hpe⟩
      · rintro ⟨e, hget, hpe⟩
        exact hmem.mpr ⟨e, Nat.zero_le i, by simpa using hget, hpe⟩

/-! ### Statistics (claim C5) -/

theorem level_counts_sum (logs : List LogLine) :
    (logs.filter fun l => l.level == LogLevel.Error).length
      + (logs.filter fun l => l.level == LogLevel.Warning).length
      + (logs.filter fun l => l.level == LogLevel.Info).length
      + (logs.filter fun l => l.level == LogLevel.Debug).length
      + (logs.filter fun l => l.level == LogLevel.Unknown).length
      = logs.length := by
  induction logs with
  | nil => rfl
  | cons l ls ih =>
    simp only [List.filter_cons, List.length_cons]
    cases hl : l.level <;> simp [hl] <;> omega

theorem hourLookup_bumpHour (m : List (List Char × Nat)) (k q : List Char) :
    hourLookup (bumpHour m k) q = hourLookup m q + (if q = k then 1 else 0) := by
  induction m with
  | nil =>
    by_cases h : q = k
    · subst h; simp [bumpHour, hourLookup]
    · have h' : ¬k = q := fun hh => h hh.symm
      simp [bumpHour, hourLookup, h, h']
  | cons p rest ih =>
    obtain ⟨k0, v⟩ := p
    by_cases hk : k0 = k
    · subst hk
      simp only [bumpHour, if_pos rfl, hourLookup]
      by_cases hq : k0 = q
      · subst hq; simp
      · have h2 : ¬q = k0 := fun hh => hq hh.symm
        simp [hq, h2]
    · simp only [bumpHour, if_neg hk, hourLookup]
      by_cases hq : k0 = q
      · subst hq
        simp [hourLookup, hk]
      · simp [hourLookup, hq, ih]

theorem hourLookup_foldl (q : List Char) :
    ∀ (logs : List LogLine) (m : List (List Char × Nat)),
      hourLookup
          (logs.foldl
            (fun m l =>
              if 13 ≤ l.timestamp.length then
                bumpHour m ((l.timestamp.drop 11).take 2)
              else m)
            m) q
        = hourLookup m q
          + (logs.filter fun l =>
              decide (13 ≤ l.timestamp.length)
                && ((l.timestamp.drop 11).take 2 == q)).length := by
  intro logs
  induction logs with
  | nil => intro m; simp
  | cons l ls ih =>
    intro m
    rw [List.foldl_cons, ih, List.filter_cons]
    by_cases hlen : 13 ≤ l.timestamp.length
    · rw [if_pos hlen, hourLookup_bumpHour]
      by_cases hq : (l.timestamp.drop 11).take 2 = q
      · simp [hlen, hq]
        omega
      · have h2 : ¬q = (l.timestamp.drop 11).take 2 := fun hh => hq hh.symm
        simp [hlen, hq, h2]
    · rw [if_neg hlen]
      simp [hlen]

/-- C5: after `update_stats`, `total_entries` equals the store length, the
five per-level counts sum to it, and the hour map sends each two-digit hour
label (timestamp characters 11..13) to the number of entries whose
timestamp has at least 13 characters and carries that label; entries with
no usable timestamp reach no hour bucket yet still count in the level
totals. -/
theorem stats_consistent (app : App) :
    (app.updateStats.stats.totalEntries = app.logLines.length)
    ∧ (app.updateStats.stats.errorCount + app.updateStats.stats.warningCount
        + app.updateStats.stats.infoCount + app.updateStats.stats.debugCount
        + app.updateStats.stats.unknownCount
        = app.updateStats.stats.totalEntries)
    ∧ ∀ q : List Char,
        hourLookup app.updateStats.stats.entriesByHour q
          = (app.logLines.filter fun l =>
              decide (13 ≤ l.timestamp.length)
                && ((l.timestamp.drop 11).take 2 == q)).length := by
  refine ⟨rfl, level_counts_sum app.logLines, ?_⟩
  intro q
  have h := hourLookup_foldl q app.logLines []
  simpa [App.updateStats, hourMap, hourLookup] using h

/-! ### Polling (claims C3, C4, C8, C10) -/

theorem updateLogs_some (app : App) (lines : List (List Char)) (now : Nat) :
    app.updateLogs (some lines) now
      = if now - app.lastUpdate < 500 then PollResult.success app
        else if lines.length > app.logLines.length then
          match app.addLines (lines.drop app.logLines.length) with
          | none => PollResult.crash
          | some a1 =>
            PollResult.success
              { (if a1.updateStats.updateFilter.followMode then
                  { a1.updateStats.updateFilter with
                    scroll := a1.updateStats.updateFilter.filteredLogs.length }
                 else a1.updateStats.updateFilter) with lastUpdate := now }
        else PollResult.success { app with lastUpdate := now } := rfl

theorem updateLogs_none (app : App) (now : Nat) :
    app.updateLogs none now
      = if now - app.lastUpdate < 500 then PollResult.success app
        else PollResult.ioFailure app := rfl

theorem updateLogs_some_new (app : App) (lines : List (List Char)) (now : Nat)
    (a1 : App)
    (hthr : ¬now - app.lastUpdate < 500)
    (hnew : lines.length > app.logLines.length)
    (hadd : app.addLines (lines.drop app.logLines.length) = some a1) :
    app.updateLogs (some lines) now
      = PollResult.success
          { (if a1.updateStats.updateFilter.followMode then
              { a1.updateStats.updateFilter with
                scroll := a1.updateStats.updateFilter.filteredLogs.length }
             else a1.updateStats.updateFilter) with lastUpdate := now } := by
  rw [updateLogs_some, if_neg hthr, if_pos hnew, hadd]

/-- C4: after an ingestion batch — an unthrottled successful poll that saw
more file lines than stored entries — a true follow mode forces the scroll
to equal the length of the freshly recomputed Filter Index, whatever the
current filter text of the same update cycle is. -/
theorem follow_mode_autoscroll (app app2 : App) (lines : List (List Char))
    (now : Nat)
    (hthr : ¬now - app.lastUpdate < 500)
    (hnew : lines.length > app.logLines.length)
    (hrun : app.updateLogs (some lines) now = PollResult.success app2)
    (hfm : app2.followMode = true) :
    app2.scroll = app2.filteredLogs.length := by
  cases hadd : app.addLines (lines.drop app.logLines.length) with
  | none =>
    rw [updateLogs_some, if_neg hthr, if_pos hnew, hadd] at hrun
    have hc : PollResult.crash = PollResult.success app2 := hrun
    cases hc
  | some a1 =>
    rw [updateLogs_some_new app lines now a1 hthr hnew hadd] at hrun
    injection hrun with h
    subst h
    by_cases hf : a1.updateStats.updateFilter.followMode = true
    · rw [if_pos hf]
    · rw [if_neg hf] at hfm
      exact absurd hfm hf

/-- Witness for C4: a fresh `App::new` polled at 500 ms over the one-line
file ["a"]. -/
theorem follow_mode_autoscroll_witness :
    followApp.scroll = followApp.filteredLogs.length :=
  follow_mode_autoscroll (App.new [] 0) followApp [['a']] 500 (by decide)
    (by decide) (by decide) (by decide)

/-- C10: an `update_logs` run over a file whose line count does not exceed
the stored entry count (no new data, or a truncated file) leaves every
field of the state unchanged except the `last_update` throttle clock, which
advances exactly when the run is not throttled. -/
theorem update_logs_no_new_data_frame (app : App) (lines : List (List Char))
    (now : Nat)
    (h : lines.length ≤ app.logLines.length) :
    app.updateLogs (some lines) now
      = PollResult.success
          { app with
            lastUpdate :=
              if now - app.lastUpdate < 500 then app.lastUpdate else now } := by
  rw [updateLogs_some]
  by_cases ht : now - app.lastUpdate < 500
  · rw [if_pos ht, if_pos ht]
  · rw [if_neg ht, if_neg ht,
      if_neg (by omega : ¬lines.length > app.logLines.length)]

/-- Witness for C10: a no-op poll of an empty file on a fresh state. -/
theorem update_logs_no_new_data_frame_witness :
    (App.new [] 0).updateLogs (some []) 0
      = PollResult.success
          { App.new [] 0 with
            lastUpdate :=
              if 0 - (App.new [] 0).lastUpdate < 500 then
                (App.new [] 0).lastUpdate
              else 0 } :=
  update_logs_no_new_data_frame (App.new [] 0) [] 0 (by decide)

/-- C3 (code bug): `update_logs` decides what is "new" by comparing the
file's line count to the current store length, not to the previously known
file line count.  Concretely: `initialize_logs` over the unchanged
three-line file ["a","b","c"] with `num_lines = 1` stores only ["c"]; the
very next poll of the same unchanged file then sees 3 > 1 and appends
["b","c"] again, leaving the store ["c","b","c"] — the already ingested
line "c" is appended a second time even though the file gained no lines. -/
theorem update_logs_reingests_old_lines :
    contentsOf initApp3 = [['c']]
      ∧ contentsOf pollAgain3 = [['c'], ['b'], ['c']] := by
  decide

/-- C7 (code bug): the guard of the timestamp extraction accepts any line
longer than 15 bytes with a space at offset 10 and a colon at offset 13,
and then takes the byte slice `line[0..19]`.  The 16-character line
"2024-01-01 10:00" passes the guard, so the slice panics (modelled `none`)
instead of yielding the empty timestamp the specification promises for
lines shorter than 20 characters. -/
theorem short_timestamp_line_panics :
    parseLogLine "2024-01-01 10:00".toList = none
      ∧ "2024-01-01 10:00".toList.length < 20 := by
  decide

/-- C8 counterexample: with the file unopenable (`none`) an unthrottled
main-loop poll step exits the process — `app.update_logs()?` in `main`
propagates the `Err` out of the event loop — contradicting the claim that
an I/O failure during a poll never terminates the process. -/
theorem poll_io_failure_exits_process :
    mainPollStep (App.new [] 0) none 500 = LoopOutcome.exitErr (App.new [] 0) := by
  decide

/-- C8 as amended: when the log file cannot be opened during an unthrottled
poll, `update_logs` reports the I/O failure with the core state left
exactly unchanged (never partially updated), and the caller `main`
propagates the failure, terminating the event loop and the process. -/
theorem update_logs_io_failure_state_unchanged (app : App) (now : Nat)
    (hthr : ¬now - app.lastUpdate < 500)
    (hv : app.viewMode ≠ ViewMode.HelpView) :
    app.updateLogs none now = PollResult.ioFailure app
      ∧ mainPollStep app none now = LoopOutcome.exitErr app := by
  have h1 : app.updateLogs none now = PollResult.ioFailure app := by
    rw [updateLogs_none, if_neg hthr]
  refine ⟨h1, ?_⟩
  unfold mainPollStep
  rw [if_neg hv, h1]

/-- Witness for the amended C8 at a fresh state polled at 500 ms. -/
theorem update_logs_io_failure_state_unchanged_witness :
    (App.new [] 0).updateLogs none 500 = PollResult.ioFailure (App.new [] 0)
      ∧ mainPollStep (App.new [] 0) none 500
        = LoopOutcome.exitErr (App.new [] 0) :=
  update_logs_io_failure_state_unchanged (App.new [] 0) 500 (by decide)
    (by decide)

/-! ### View state (claims C6, C9) -/

/-- C6 counterexample: a reachable state violating
`scroll ≤ len(Filter Index)` right after a filter-text edit.  From startup,
load ["a","b"], press Down twice (scroll = 2 with the identity Filter
Index), enter filter editing with `/` and type `z`: `add_filter_char`
recomputes the Filter Index to [] but never clamps the scroll, leaving
scroll = 2 > 0 = len(Filter Index). -/
theorem scroll_invariant_broken_by_filter_edit :
    reachedApp.filteredLogs.length < reachedApp.scroll
      ∧ reachedApp.scroll = 2
      ∧ reachedApp.filteredLogs = [] := by
  decide

/-- C6 as amended: `scroll_up`, `scroll_down`, `page_up`, `page_down` and
`toggle_follow_mode` all preserve `scroll ∈ [0, len(Filter Index)]` (the
lower bound holding by the type); a filter-text edit or an ingestion batch
that shrinks the Filter Index, however, can leave `scroll` above its
length, as the counterexample shows. -/
theorem scroll_ops_preserve_invariant (app : App)
    (h : app.scroll ≤ app.filteredLogs.length) :
    app.scrollUp.scroll ≤ app.scrollUp.filteredLogs.length
    ∧ app.scrollDown.scroll ≤ app.scrollDown.filteredLogs.length
    ∧ app.pageUp.scroll ≤ app.pageUp.filteredLogs.length
    ∧ app.pageDown.scroll ≤ app.pageDown.filteredLogs.length
    ∧ app.toggleFollowMode.scroll ≤ app.toggleFollowMode.filteredLogs.length := by
  refine ⟨?_, ?_, ?_, ?_, ?_⟩
  · unfold App.scrollUp
    split
    · dsimp only; omega
    · exact h
  · unfold App.scrollDown
    split
    · dsimp only; omega
    · exact h
  · unfold App.pageUp
    split
    · dsimp only; omega
    · dsimp only; omega
  · unfold App.pageDown
    split
    · dsimp only; omega
    · dsimp only; omega
  · unfold App.toggleFollowMode
    dsimp only
    split
    · dsimp only; omega
    · exact h

/-- Witness for the amended C6 on a fresh state. -/
theorem scroll_ops_preserve_invariant_witness :
    (App.new [] 0).scrollUp.scroll ≤ (App.new [] 0).scrollUp.filteredLogs.length
    ∧ (App.new [] 0).scrollDown.scroll
      ≤ (App.new [] 0).scrollDown.filteredLogs.length
    ∧ (App.new [] 0).pageUp.scroll ≤ (App.new [] 0).pageUp.filteredLogs.length
    ∧ (App.new [] 0).pageDown.scroll
      ≤ (App.new [] 0).pageDown.filteredLogs.length
    ∧ (App.new [] 0).toggleFollowMode.scroll
      ≤ (App.new [] 0).toggleFollowMode.filteredLogs.length :=
  scroll_ops_preserve_invariant (App.new [] 0) (by decide)

/-- C9 (code bug): Esc in filter editing is supposed to discard the
in-progress edits ("Restore previous filter if canceled", main.rs 477), but
the Esc arm only switches the view back.  Entering filter editing from a
fresh state (filter text empty), typing `a` and pressing Esc leaves the
committed filter text as "a", not the empty text it had when editing
began. -/
theorem esc_keeps_edited_filter :
    ((App.new [] 0).handleKey (Key.char '/' false)).filterText = []
      ∧ ([Key.char '/' false, Key.char 'a' false, Key.esc].foldl App.handleKey
          (App.new [] 0)).filterText = ['a']
      ∧ ([Key.char '/' false, Key.char 'a' false, Key.esc].foldl App.handleKey
          (App.new [] 0)).viewMode = ViewMode.LogView := by
  decide

end LogMonitor
